import Mathlib

/-!
Verification of the CFF2 charstring merge-and-specialize engine of
`afdko` (files `src/python/afdko/cff2mergePen.py` and
`src/python/afdko/cff2_specializer.py`) against its natural-language
specification.

The Python code is shallowly embedded: numbers are `ℚ`, command argument
values are either a bare scalar or a blend vector (a Python list of one
value per master), and fallible Python operations (indexing errors,
`TypeError` on mixed `+`, `ValueError` on `max([])`, `AssertionError`,
`NameError` on an unbound local, `UnboundLocalError`) are modelled with
`Except`.

One global data-flow fact about the program is used throughout the
embedding: the values stored in command argument lists are only Python
numbers and Python *lists* of numbers, never tuples.  `reorder_blend_args`
(cff2mergePen.py lines 622-658) builds every blend argument with a list
comprehension (`rel_coord = [pt[0] - pt[1] for pt in zip(coord, prev_coord)]`)
or collapses it to a bare number, and `specializeCommands` only copies,
slices, concatenates and sums those values (its `type(args)((0,))` at line
244 preserves the type of the *container* `cmd[1]`, which is a list).
Consequently the argument type below has exactly two constructors, and the
two places where the source inspects `tuple`-ness of an argument
(`type(args[i]) is tuple` at line 376 and `type(args[0]) != tuple` at line
205) are embedded as the constants they evaluate to on this data.
-/

namespace CFF2Merge

/-- Axis-category tag of an operator: `'0'`, `'h'`, `'v'`, `'r'` in the
source's operator-name strings (cff2mergePen.py lines 97-118). -/
inductive Tag
  | z
  | h
  | v
  | r
deriving DecidableEq

/-- Operator vocabulary of the specializer.  The source stores operators as
mnemonic strings (`'rmoveto'`, `'hlineto'`, `'hvcurveto'`, `'rlinecurve'`,
`'rcurveline'`, ...); here the base shape and the axis tags are explicit,
with `moveto t` standing for the string `t+'moveto'`, `curveto t1 t2` for
`t1+t2+'curveto'`, and so on. -/
inductive Op
  | moveto (t : Tag)
  | lineto (t : Tag)
  | curveto (t1 t2 : Tag)
  | rlinecurve
  | rcurveline
deriving DecidableEq

/-- One command argument after blend reduction: either a bare Python number
or a blend vector (a Python list holding one value per master, index 0 =
default master). -/
inductive Arg
  | scalar (q : ℚ)
  | blend (v : List ℚ)
deriving DecidableEq

/-- A specialized-form command: `(operator, argument list)`
(cff2mergePen.py data model after `reorder_blend_args`). -/
structure SCmd where
  op : Op
  args : List Arg
deriving DecidableEq

/-- Python exceptions that the embedded code can raise. -/
inductive PErr
  | mergeType (point_type : Op) (pt_index : ℕ) (m_index : ℕ) (default_type : Op)
  | mergeChar (gname : String) (inner : PErr)
  | nameError
  | indexError
  | typeError
  | valueError
  | assertionError
  | unboundLocalError
deriving DecidableEq

/-- One token of the emitted charstring program: a numeric operand, an
operator mnemonic, or the `'blend'` operator marker. -/
inductive Token
  | num (q : ℚ)
  | opTok (o : Op)
  | blendTok
deriving DecidableEq

/-- Emission of one command's argument list: the inner `while i < num_args`
loop of `commandsToProgram` (cff2mergePen.py lines 359-393).  A non-list
argument is appended to the program directly.  For a list (blend) argument
the source starts `blendlist = [arg]` and then looks ahead with
`while (i < num_args) and (type(args[i]) is tuple)` (line 376); blend
arguments in this program are always Python lists, never tuples (see the
module comment), so the look-ahead guard is always False and `blendlist`
keeps exactly one vector (`num_blends = 1`).  The `stack_use` counter only
feeds the `break` inside that never-entered loop.  The function is
instrumented to also return, for each emitted blend operator, the pair
`(num_blends, num_masters)` describing the blend run. -/
def emitArgs (getDeltas : List ℚ → List ℚ) (max_stack : ℕ) :
    List Arg → Except PErr (List Token × List (ℕ × ℕ))
  | [] => .ok ([], [])
  | .scalar q :: rest =>
      match emitArgs getDeltas max_stack rest with
      | .error e => .error e
      | .ok (p, runs) => .ok (.num q :: p, runs)
  | .blend v :: rest =>
      match v with
      | [] => .error .indexError
      | v0 :: _ =>
          match emitArgs getDeltas max_stack rest with
          | .error e => .error e
          | .ok (p, runs) =>
              .ok (.num v0 :: (((getDeltas v).drop 1).map .num ++ (.num 1 :: .blendTok :: p)),
                   (1, v.length) :: runs)

/-- Embedding of `commandsToProgram` (cff2mergePen.py lines 351-396),
instrumented with the list of emitted blend runs: for each command, emit
its arguments with `emitArgs` and then append the operator (`if op:` at
line 394 is always true, since every operator of `Op` is a non-empty
mnemonic).  `var_model.getDeltas` is the external variation model, passed
as the function `getDeltas`. -/
def commandsToProgram (getDeltas : List ℚ → List ℚ) (max_stack : ℕ) :
    List SCmd → Except PErr (List Token × List (ℕ × ℕ))
  | [] => .ok ([], [])
  | c :: rest =>
      match emitArgs getDeltas max_stack c.args with
      | .error e => .error e
      | .ok (p, runs) =>
          match commandsToProgram getDeltas max_stack rest with
          | .error e => .error e
          | .ok (p2, runs2) => .ok (p ++ .opTok c.op :: p2, runs ++ runs2)

/-- A concrete external variation model used for evaluations: index 0 is
the default-master value passed through, indices 1.. are the differences
from the default. -/
def exampleDeltas (v : List ℚ) : List ℚ :=
  match v with
  | [] => []
  | a :: rest => a :: rest.map (fun x => x - a)

/-!
The specializer, `specializeCommands` (cff2mergePen.py lines 30-346).
Its small helpers `_categorizeVector`, `_mergeCategories` and
`_negateCategory` are imported by the source from
`fontTools.cffLib.specializer`; they are embedded below following their
fontTools definitions, which the source relies on.
-/

/-- Python truthiness of a command argument: the number `0` and the empty
list are falsy, every other number and every non-empty list are truthy.
`_categorizeVector` tests its components with `if not v[0]`, which on a
blend argument (a non-empty list) is always False, so a blend-valued
component always counts as non-zero. -/
def isFalsy : Arg → Bool
  | .scalar q => q == 0
  | .blend v => v.isEmpty

/-- Python `+` on two command argument values: number + number adds,
list + list concatenates, and a mixed pair raises `TypeError`. -/
def pyAdd : Arg → Arg → Except PErr Arg
  | .scalar a, .scalar b => .ok (.scalar (a + b))
  | .blend a, .blend b => .ok (.blend (a ++ b))
  | _, _ => .error .typeError

/-- Embedding of `fontTools.cffLib.specializer._categorizeVector`: given a
two-component vector, return the axis category and the projected
arguments (`'0', v[:1]` / `'v', v[1:]` / `'h', v[:1]` / `'r', v`);
indexing an argument list shorter than two raises `IndexError`. -/
def categorizeVector (v : List Arg) : Except PErr (Tag × List Arg) :=
  match v[0]?, v[1]? with
  | some a0, some a1 =>
      if isFalsy a0 then
        if isFalsy a1 then .ok (.z, v.take 1) else .ok (.v, v.drop 1)
      else
        if isFalsy a1 then .ok (.h, v.take 1) else .ok (.r, v)
  | _, _ => .error .indexError

/-- Embedding of `fontTools.cffLib.specializer._mergeCategories`:
`'0'` merges with anything, equal categories merge, anything else
does not merge. -/
def mergeCategories : Tag → Tag → Option Tag
  | .z, b => some b
  | a, .z => some a
  | a, b => if a = b then some a else none

/-- Embedding of `fontTools.cffLib.specializer._negateCategory`: swap
`'h'` and `'v'`; the remaining categories (`'0'` and `'r'`, checked by the
source's assert) are returned unchanged. -/
def negateCategory : Tag → Tag
  | .h => .v
  | .v => .h
  | t => t

/-- Pass 1 of `specializeCommands` (lines 82-86): walking right to left,
an adjacent `rmoveto`/`rmoveto` pair becomes one `rmoveto` whose offset is
the component-wise sum `[v1[0]+v2[0], v1[1]+v2[1]]`, and the right command
is deleted.  The right-to-left loop with in-place deletion is realised as
a right fold: the suffix is fully processed before the head is compared
with the processed suffix's first command. -/
def pass1 : List SCmd → Except PErr (List SCmd)
  | [] => .ok []
  | c :: rest =>
      match pass1 rest with
      | .error e => .error e
      | .ok r =>
          match r with
          | c2 :: rest2 =>
              if c.op = Op.moveto Tag.r ∧ c2.op = Op.moveto Tag.r then
                match c.args[0]?, c.args[1]?, c2.args[0]?, c2.args[1]? with
                | some a0, some a1, some b0, some b1 =>
                    match pyAdd a0 b0 with
                    | .error e => .error e
                    | .ok s0 =>
                        match pyAdd a1 b1 with
                        | .error e => .error e
                        | .ok s1 => .ok (⟨Op.moveto Tag.r, [s0, s1]⟩ :: rest2)
                | _, _, _, _ => .error .indexError
              else .ok (c :: r)
          | [] => .ok [c]

/-- Pass 2 of `specializeCommands` (lines 146-158): an `rmoveto`/`rlineto`
is re-tagged through `_categorizeVector`; an `rrcurveto` categorizes its
leading and trailing two-component vectors and becomes
`c1+c2+'curveto'` with arguments `args1 + args[2:4] + args2`.  Other
operators pass through. -/
def pass2Item (c : SCmd) : Except PErr SCmd :=
  match c.op with
  | .moveto .r =>
      match categorizeVector c.args with
      | .error e => .error e
      | .ok (t, args2) => .ok ⟨.moveto t, args2⟩
  | .lineto .r =>
      match categorizeVector c.args with
      | .error e => .error e
      | .ok (t, args2) => .ok ⟨.lineto t, args2⟩
  | .curveto .r .r =>
      match categorizeVector (c.args.take 2) with
      | .error e => .error e
      | .ok (t1, args1) =>
          match categorizeVector (c.args.drop (c.args.length - 2)) with
          | .error e => .error e
          | .ok (t2, args2) =>
              .ok ⟨.curveto t1 t2, args1 ++ ((c.args.drop 2).take 2) ++ args2⟩
  | _ => .ok c

/-- Pass 2 applied to every command. -/
def pass2 (cmds : List SCmd) : Except PErr (List SCmd) := cmds.mapM pass2Item

/-- Pass 3, per-command step (lines 185-199): a `00curveto` (asserted to
have four arguments) is demoted to a specialized lineto through
`_categorizeVector(args[1:3])`; a `0lineto` is then deleted (the step
returns `none`). -/
def pass3Demote (c : SCmd) : Except PErr (Option SCmd) :=
  match
    ((if c.op = Op.curveto Tag.z Tag.z then
      if c.args.length = 4 then
        match categorizeVector ((c.args.drop 1).take 2) with
        | .error e => .error e
        | .ok (t, args2) => .ok (⟨Op.lineto t, args2⟩ : SCmd)
      else .error .assertionError
    else .ok c) : Except PErr SCmd) with
  | .error e => .error e
  | .ok c2 => if c2.op = Op.lineto Tag.z then .ok none else .ok (some c2)

/-- Pass 3, merge step (lines 201-211): the loop iteration at the right
neighbour merges it into the current command when both are the same
`hlineto`/`vlineto` (the guard `type(args[0]) != tuple` is always true on
this program's data), asserting both argument lists have length one and
summing the single offsets with Python `+`.  `c` holds its original
operator because the loop visits the right neighbour before re-examining
`c` itself. -/
def pass3Absorb (c : SCmd) (r : List SCmd) : Except PErr (SCmd × List SCmd) :=
  match r with
  | c2 :: rest2 =>
      if (c2.op = Op.lineto Tag.h ∨ c2.op = Op.lineto Tag.v) ∧ c.op = c2.op then
        match c2.args[0]? with
        | none => .error .indexError
        | some a2 =>
            if c2.args.length = 1 ∧ c.args.length = 1 then
              match c.args[0]? with
              | none => .error .indexError
              | some a1 =>
                  match pyAdd a1 a2 with
                  | .error e => .error e
                  | .ok s => .ok (⟨c.op, [s]⟩, rest2)
            else .error .assertionError
      else .ok (c, r)
  | [] => .ok (c, [])

/-- Pass 3 of `specializeCommands` (lines 184-211), the topology-changing
cleanup, skipped when `preserveTopology` is set.  The descending index
loop is realised as a right fold; the boolean carried alongside the
processed suffix records whether the suffix's first command is the
(possibly rewritten) survivor of the original right neighbour — only then
may it merge into the current command, since the loop checked adjacency
before any deletion. -/
def pass3Aux : List SCmd → Except PErr (Bool × List SCmd)
  | [] => .ok (true, [])
  | c :: rest =>
      match pass3Aux rest with
      | .error e => .error e
      | .ok (headOk, r) =>
          match (if headOk then pass3Absorb c r else .ok (c, r)) with
          | .error e => .error e
          | .ok (c2, r2) =>
              match pass3Demote c2 with
              | .error e => .error e
              | .ok none => .ok (false, r2)
              | .ok (some c3) => .ok (true, c3 :: r2)

/-- Pass 3 entry point. -/
def pass3 (cmds : List SCmd) : Except PErr (List SCmd) :=
  match pass3Aux cmds with
  | .error e => .error e
  | .ok (_, r) => .ok r

/-- Pass 4, per-command rewrite (lines 218-246): a lone `0/h/vlineto`
between two `rlineto`s reverts to `rlineto` (vertical puts its offset
second); a five-argument curve with exactly one `'r'` side between two
`rrcurveto`s reinserts the elided zero at the position determined by its
tags and reverts to `rrcurveto`. -/
def pass4Fix (prv : Op) (c : SCmd) (nxt : Op) : Except PErr SCmd :=
  if (c.op = Op.lineto Tag.z ∨ c.op = Op.lineto Tag.h ∨ c.op = Op.lineto Tag.v) ∧
      prv = Op.lineto Tag.r ∧ nxt = Op.lineto Tag.r then
    if c.args.length = 1 then
      match c.args[0]? with
      | some a =>
          .ok ⟨Op.lineto Tag.r,
               if c.op = Op.lineto Tag.v then [Arg.scalar 0, a] else [a, Arg.scalar 0]⟩
      | none => .error .indexError
    else .error .assertionError
  else
    match c.op with
    | .curveto t1 t2 =>
        if c.args.length = 5 ∧ prv = Op.curveto Tag.r Tag.r ∧ nxt = Op.curveto Tag.r Tag.r then
          if ((t1 == Tag.r) != (t2 == Tag.r)) = true then
            let pos : ℕ :=
              if t1 = Tag.v then 0
              else if t1 ≠ Tag.r then 1
              else if t2 = Tag.v then 4
              else 5
            .ok ⟨Op.curveto Tag.r Tag.r, c.args.take pos ++ [Arg.scalar 0] ++ c.args.drop pos⟩
          else .error .assertionError
        else .ok c
    | _ => .ok c

/-- Pass 4 of `specializeCommands` (lines 218-246): the ascending loop
over interior indices, where the previous command has already been
rewritten by this pass and the next command has not. -/
def pass4Go (prv : SCmd) : List SCmd → Except PErr (List SCmd)
  | [] => .ok []
  | [c] => .ok [c]
  | c :: nxt :: rest =>
      match pass4Fix prv.op c nxt.op with
      | .error e => .error e
      | .ok c2 =>
          match pass4Go c2 (nxt :: rest) with
          | .error e => .error e
          | .ok r => .ok (c2 :: r)

/-- Pass 4 entry point: indices `1 .. len-2` are rewritten, the first and
last commands are not. -/
def pass4 : List SCmd → Except PErr (List SCmd)
  | [] => .ok []
  | c :: rest =>
      match pass4Go c rest with
      | .error e => .error e
      | .ok r => .ok (c :: r)

/-- The combined operator of an adjacent command pair, when one is defined
(the `new_op` computation of pass 5, lines 252-300): line/line and
curve/curve runs, `rlinecurve`/`rcurveline` formation and extension,
alternating `hlineto`/`vlineto`, and the curve category algebra with the
source's early `continue`s mapped to `none`. -/
def newOpOf (c1 c2 : SCmd) : Option Op :=
  if (c1.op = Op.lineto Tag.r ∨ c1.op = Op.curveto Tag.r Tag.r) ∧
     (c2.op = Op.lineto Tag.r ∨ c2.op = Op.curveto Tag.r Tag.r) then
    if c1.op = c2.op then some c1.op
    else if c2.op = Op.curveto Tag.r Tag.r ∧ c2.args.length = 6 then some .rlinecurve
    else if c2.args.length = 2 then some .rcurveline
    else none
  else if (c1.op = Op.lineto Tag.r ∧ c2.op = Op.rlinecurve) ∨
          (c1.op = Op.curveto Tag.r Tag.r ∧ c2.op = Op.rcurveline) then
    some c2.op
  else if (c1.op = Op.lineto Tag.v ∧ c2.op = Op.lineto Tag.h) ∨
          (c1.op = Op.lineto Tag.h ∧ c2.op = Op.lineto Tag.v) then
    some c1.op
  else
    match c1.op, c2.op with
    | .curveto d0 d1, .curveto d2 d3 =>
        if d1 = Tag.r ∨ d2 = Tag.r ∨ (d0 = Tag.r ∧ d3 = Tag.r) then none
        else
          match mergeCategories d1 d2 with
          | none => none
          | some d =>
              if d0 = Tag.r then
                match mergeCategories d d3 with
                | none => none
                | some d2m => some (.curveto Tag.r d2m)
              else if d3 = Tag.r then
                match mergeCategories d0 (negateCategory d) with
                | none => none
                | some d0m => some (.curveto d0m Tag.r)
              else
                match mergeCategories d0 d3 with
                | none => none
                | some d0m => some (.curveto d0m d)
    | _, _ => none

/-- Pass 5 of `specializeCommands` (lines 252-306): walking right to left,
an adjacent pair with a defined combined operator is merged into one
command with the concatenated argument lists whenever
`len(args1) + len(args2) < maxstack` (the source comment: keep the stack
depth from exceeding `maxstack - 1` so the subroutinizer can insert
calls); otherwise the pair is left in place. -/
def pass5 (maxstack : ℕ) : List SCmd → List SCmd
  | [] => []
  | c :: rest =>
      match pass5 maxstack rest with
      | c2 :: rest2 =>
          match newOpOf c c2 with
          | some nop =>
              if c.args.length + c2.args.length < maxstack then
                ⟨nop, c.args ++ c2.args⟩ :: rest2
              else c :: c2 :: rest2
          | none => c :: c2 :: rest2
      | [] => [c]

/-- Pass 6 of `specializeCommands` (lines 309-344): a remaining `0moveto`
or `0lineto` becomes its `h` variant; a curve operator outside the five
canonical tag pairs resolves its `'0'` tags to `'h'` and its `'r'` tag
from the other side (asserting an odd argument count when exactly one
side was `'r'`), then performs the source's last-two / first-two argument
swap for odd argument counts. -/
def pass6Item (c : SCmd) : Except PErr SCmd :=
  if c.op = Op.moveto Tag.z then .ok ⟨Op.moveto Tag.h, c.args⟩
  else if c.op = Op.lineto Tag.z then .ok ⟨Op.lineto Tag.h, c.args⟩
  else
    match c.op with
    | .curveto t0 t1 =>
        if (t0 = Tag.r ∧ t1 = Tag.r) ∨ (t0 = Tag.h ∧ t1 = Tag.h) ∨
           (t0 = Tag.v ∧ t1 = Tag.v) ∨ (t0 = Tag.v ∧ t1 = Tag.h) ∨
           (t0 = Tag.h ∧ t1 = Tag.v) then .ok c
        else
          if ((t0 == Tag.r) != (t1 == Tag.r)) = true ∧ c.args.length % 2 ≠ 1 then
            .error .assertionError
          else
            let op0 := if t0 = Tag.z then Tag.h else t0
            let op1 := if t1 = Tag.z then Tag.h else t1
            let op0 := if op0 = Tag.r then op1 else op0
            let op1 := if op1 = Tag.r then negateCategory op0 else op1
            if (op0 = Tag.h ∨ op0 = Tag.v) ∧ (op1 = Tag.h ∨ op1 = Tag.v) then
              let args := c.args
              let args :=
                if args.length % 2 = 1 then
                  if op0 ≠ op1 then
                    if ((op0 == Tag.h) != (args.length % 8 == 1)) = true then
                      args.take (args.length - 2) ++ args.drop (args.length - 1) ++
                        (args.drop (args.length - 2)).take 1
                    else args
                  else
                    if op0 = Tag.h then
                      (args.drop 1).take 1 ++ args.take 1 ++ args.drop 2
                    else args
                else args
              .ok ⟨.curveto op0 op1, args⟩
            else .error .assertionError
    | _ => .ok c

/-- Embedding of `specializeCommands` (cff2mergePen.py lines 30-346) with
`generalizeFirst = False`, as at its only call site in this program
(`getCharString`, line 668); `ignoreErrors` only feeds the skipped
generalization step.  The six passes run in the fixed source order, with
pass 3 skipped when `preserveTopology` is set. -/
def specializeCommands (preserveTopology : Bool) (maxstack : ℕ) (cmds : List SCmd) :
    Except PErr (List SCmd) :=
  match pass1 cmds with
  | .error e => .error e
  | .ok c1 =>
      match pass2 c1 with
      | .error e => .error e
      | .ok c2 =>
          match (if preserveTopology then .ok c2 else pass3 c2) with
          | .error e => .error e
          | .ok c3 =>
              match pass4 c3 with
              | .error e => .error e
              | .ok c4 => (pass5 maxstack c4).mapM pass6Item

/-!
The blend reducer, `CFF2CharStringMergePen.reorder_blend_args`
(cff2mergePen.py lines 622-658), and the charstring assembly
`getCharString` (lines 660-674).
-/

/-- A merged (pre-reduction) command: the operator together with one
absolute-coordinate group per master (`cmd[1]` after the aligner has run,
one entry per master in master order). -/
structure PCmd where
  op : Op
  coords : List (List ℚ)
deriving DecidableEq

/-- Python `zip(*args)`: transpose a list of rows, truncating at the
shortest row; `zip()` of no rows is empty.  Used for
`m_args = zip(*args)` at line 635. -/
def zipStar (rows : List (List ℚ)) : List (List ℚ) :=
  (List.range ((rows.map List.length).min?.getD 0)).map
    (fun i => rows.map (fun r => r.getD i 0))

/-- Python `max` over a list of numbers; `max([])` raises `ValueError`. -/
def pyMax : List ℚ → Except PErr ℚ
  | [] => .error .valueError
  | x :: xs => .ok (xs.foldl max x)

/-- Python `min` over a list of numbers; `min([])` raises `ValueError`. -/
def pyMin : List ℚ → Except PErr ℚ
  | [] => .error .valueError
  | x :: xs => .ok (xs.foldl min x)

/-- The inner loop of `reorder_blend_args` (lines 643-657) over one
command's transposed coordinate vectors: each vector is made relative to
the running previous vector of its channel (`x0` for even positions, `y0`
for odd — `is_x` starts true and alternates), collapsed to the bare
scalar `rel_coord[0]` when all entries agree (`max == min`), and the
channel's previous vector is updated to the *absolute* vector.  Returns
the reduced arguments together with the final `x0`/`y0`. -/
def reorderCols : List (List ℚ) → Bool → List ℚ → List ℚ →
    Except PErr (List Arg × List ℚ × List ℚ)
  | [], _, x0, y0 => .ok ([], x0, y0)
  | coord :: rest, is_x, x0, y0 =>
      let prev := if is_x then x0 else y0
      let rel := (coord.zip prev).map (fun p => p.1 - p.2)
      match pyMax rel with
      | .error e => .error e
      | .ok mx =>
          match pyMin rel with
          | .error e => .error e
          | .ok mn =>
              let a := if mx = mn then Arg.scalar (rel.headD 0) else Arg.blend rel
              let x1 := if is_x then coord else x0
              let y1 := if is_x then y0 else coord
              match reorderCols rest (!is_x) x1 y1 with
              | .error e => .error e
              | .ok (rest2, xf, yf) => .ok (a :: rest2, xf, yf)

/-- The command loop of `reorder_blend_args`: `x0`/`y0` persist across
commands, `is_x` restarts at true for each command. -/
def reorderGo : List PCmd → List ℚ → List ℚ → Except PErr (List SCmd)
  | [], _, _ => .ok []
  | c :: rest, x0, y0 =>
      match reorderCols (zipStar c.coords) true x0 y0 with
      | .error e => .error e
      | .ok (args, x1, y1) =>
          match reorderGo rest x1 y1 with
          | .error e => .error e
          | .ok r => .ok (⟨c.op, args⟩ :: r)

/-- Embedding of `reorder_blend_args` (cff2mergePen.py lines 622-658):
each command's per-master argument groups are transposed into
per-coordinate master vectors (`zip(*args)`), then converted to
relative form against `x0 = y0 = [0]*num_masters`, collapsing a vector to
a bare scalar when all its entries are numerically identical.  The source
performs the transpose loop first and the relative loop second; the two
loops touch each command independently, so they are fused here. -/
def reorderBlendArgs (num_masters : ℕ) (cmds : List PCmd) : Except PErr (List SCmd) :=
  reorderGo cmds (List.replicate num_masters 0) (List.replicate num_masters 0)

/-- The pen state that `getCharString` reads: the merged command list and
the master count (the pen always has `self._CFF2 = True`, set by its
constructor). -/
structure PenVS where
  commands : List PCmd
  num_masters : ℕ

/-- Embedding of `CFF2CharStringMergePen.getCharString` (cff2mergePen.py
lines 660-674): reorder the blend arguments, then — only inside the
`if optimize:` branch — assign the local `maxstack` (`513`, since the pen
is CFF2) and specialize; finally call
`commandsToProgram(commands, maxstack, var_model)`.  When `optimize` is
false the local `maxstack` was never assigned, which Python reports as an
`UnboundLocalError` at the call.  The produced charstring is represented
by its program token list. -/
def getCharString (st : PenVS) (getDeltas : List ℚ → List ℚ) (optimize : Bool) :
    Except PErr (List Token) :=
  match reorderBlendArgs st.num_masters st.commands with
  | .error e => .error e
  | .ok cmds =>
      match
        ((if optimize then
            match specializeCommands false 513 cmds with
            | .error e => .error e
            | .ok c2 => .ok (c2, some 513)
          else .ok (cmds, none)) : Except PErr (List SCmd × Option ℕ)) with
      | .error e => .error e
      | .ok (cmds2, maxstack) =>
          match maxstack with
          | none => .error .unboundLocalError
          | some ms =>
              match commandsToProgram getDeltas ms cmds2 with
              | .error e => .error e
              | .ok (prog, _) => .ok prog

/-- Decidable check: no blend vector appears among a command list's
arguments (everything collapsed to bare scalars). -/
def allScalar (cmds : List SCmd) : Bool :=
  cmds.all (fun c => c.args.all (fun a => match a with | .scalar _ => true | .blend _ => false))

/-- Decidable check: a list is not constant (some entry differs from the
first). -/
def variesList (v : List ℚ) : Bool :=
  match v with
  | [] => false
  | x :: xs => xs.any (fun y => y != x)

/-- Decidable check: every blend vector among a command list's arguments
actually varies (no degenerate all-equal blend vector escaped the
collapse rule). -/
def noDegenerateBlend (cmds : List SCmd) : Bool :=
  cmds.all (fun c => c.args.all (fun a => match a with
    | .scalar _ => true
    | .blend v => variesList v))

/-- A junk variation model whose index-0 output disagrees with the stored
default value; used to witness that the emitter never consults the
model's index-0 output. -/
def exampleDeltasJunk (v : List ℚ) : List ℚ :=
  999 :: (exampleDeltas v).drop 1

/-!
The private-dictionary scalar merge of `cff2_specializer.py`:
`pointsDiffer` (lines 117-121) and the scalar (non-list) branch of
`merge_PrivateDicts` (lines 196-202).
-/

/-- Embedding of `pointsDiffer` (cff2_specializer.py lines 117-121):
`p0 = max(pointList)`, `p1 = min(pointList)`, and the result is
`True if p1 == p0 else False` — i.e. true exactly when the list is
constant, despite the function's name. -/
def pointsDiffer (pointList : List ℚ) : Except PErr Bool :=
  match pyMax pointList with
  | .error e => .error e
  | .ok p0 =>
      match pyMin pointList with
      | .error e => .error e
      | .ok p1 => .ok (p1 == p0)

/-- The value stored back into a private-dict field by the scalar branch
of `merge_PrivateDicts`: either the plain default-master number or the
variation model's full delta list. -/
inductive DictVal
  | plain (q : ℚ)
  | blended (l : List ℚ)
deriving DecidableEq

/-- Embedding of the scalar (non-list) branch of `merge_PrivateDicts`
(cff2_specializer.py lines 196-202): `values` holds the field's value
from each master's private dict, default first; when `pointsDiffer`
returns true the variation model is called on them, otherwise the
default master's `values[0]` is stored unchanged. -/
def mergeScalarPrivateValue (values : List ℚ) (getDeltas : List ℚ → List ℚ) :
    Except PErr DictVal :=
  match pointsDiffer values with
  | .error e => .error e
  | .ok d =>
      if d then .ok (.blended (getDeltas values))
      else
        match values with
        | v :: _ => .ok (.plain v)
        | [] => .error .indexError

/-!
The merge aligner, `CFF2CharStringMergePen` (cff2mergePen.py lines
399-620), and the per-glyph loop `merge_charstrings`
(cff2_specializer.py lines 213-239).
-/

/-- Python list indexing `l[i]`: a negative index counts from the end;
out of range raises `IndexError`. -/
def pyGet {α : Type} (l : List α) (i : ℤ) : Except PErr α :=
  let j : ℤ := if i < 0 then i + l.length else i
  if h : 0 ≤ j ∧ j.toNat < l.length then .ok (l.get ⟨j.toNat, h.2⟩)
  else .error .indexError

/-- Python `list.insert(i, x)` for a non-negative index: insert before
position `i`, appending when `i` is past the end. -/
def pyInsert {α : Type} (l : List α) (i : ℕ) (x : α) : List α :=
  if l.length ≤ i then l ++ [x] else l.insertIdx i x

/-- Python slice `l[-2:]`: the last two elements (the whole list when it
is shorter). -/
def lastTwo {α : Type} (l : List α) : List α := l.drop (l.length - 2)

/-- Embedding of `fontTools.misc.fixedTools.otRound`: round half away
from negative infinity, `floor(value + 0.5)`. -/
def otRound (q : ℚ) : ℤ := Rat.floor (q + 1 / 2)

/-- Embedding of `CFF2CharStringMergePen._round` (cff2mergePen.py lines
416-428): no-op for tolerance 0; otherwise return the `otRound`-ed
integer when the tolerance is at least one half or the rounding error is
within the tolerance, else the number unchanged. -/
def penRound (tolerance : ℚ) (number : ℚ) : ℚ :=
  if tolerance = 0 then number
  else
    let rounded : ℚ := otRound number
    if tolerance ≥ 1 / 2 ∨ |rounded - number| ≤ tolerance then rounded else number

/-- The state of a `CFF2CharStringMergePen`: the command skeleton
(`self._commands`), the alignment cursor (`self.pt_index`), the current
master (`self.m_index`), the master count, the index of the most recent
moveto (`self.prev_move_idx`), the last absolute point (`self._p0`) and
the rounding tolerance.  (`self.prev_move_abs_coords`, assigned in
`_moveTo`, is never read and is omitted.) -/
structure PenState where
  commands : List PCmd
  pt_index : ℕ
  m_index : ℕ
  num_masters : ℕ
  prev_move_idx : ℕ
  p0 : ℚ × ℚ
  roundTolerance : ℚ
deriving DecidableEq

/-- Embedding of `make_flat_curve` (cff2mergePen.py lines 439-448):
synthesize flattened-cubic control points at one-third and two-thirds of
the straight segment from `prev_coords` to `cur_coords`. -/
def makeFlatCurve (tolerance : ℚ) (prev_coords cur_coords : List ℚ) :
    Except PErr (List ℚ) :=
  match cur_coords[0]?, cur_coords[1]?, prev_coords[0]?, prev_coords[1]? with
  | some cx, some cy, some px, some py =>
      let dx := penRound tolerance ((cx - px) / 3)
      let dy := penRound tolerance ((cy - py) / 3)
      .ok ([px + dx, py + dy, px + 2 * dx, py + 2 * dy] ++ cur_coords)
  | _, _, _, _ => .error .indexError

/-- The `is_default=True` branch of `make_curve_coords` (cff2mergePen.py
lines 450-460): for each master `i`, flatten from the previous command's
`i`-th master coordinates (`prev_cmd[1][i][:2]`).  The index-paired loop
over `enumerate(coords)`. -/
def mapFlatDefault (tolerance : ℚ) (prevArgs : List (List ℚ)) :
    ℕ → List (List ℚ) → Except PErr (List (List ℚ))
  | _, [] => .ok []
  | i, cur :: rest =>
      match pyGet prevArgs i with
      | .error e => .error e
      | .ok prev =>
          match makeFlatCurve tolerance (prev.take 2) cur with
          | .error e => .error e
          | .ok mc =>
              match mapFlatDefault tolerance prevArgs (i + 1) rest with
              | .error e => .error e
              | .ok r => .ok (mc :: r)

/-- Embedding of `make_curve_coords(coords, is_default=True)`: `prev_cmd`
is `self._commands[self.pt_index-1]` (a Python index, so `-1` reaches the
last command when `pt_index` is 0). -/
def makeCurveCoordsDefault (st : PenState) (coords : List (List ℚ)) :
    Except PErr (List (List ℚ)) :=
  match pyGet st.commands ((st.pt_index : ℤ) - 1) with
  | .error e => .error e
  | .ok prev_cmd => mapFlatDefault st.roundTolerance prev_cmd.coords 0 coords

/-- Embedding of `make_curve_coords(coords, is_default=False)`
(cff2mergePen.py lines 461-464): flatten the region's line from the
previous command's last master coordinates (`prev_cmd[1][-1][:2]`). -/
def makeCurveCoordsRegion (st : PenState) (coords : List ℚ) : Except PErr (List ℚ) :=
  match pyGet st.commands ((st.pt_index : ℤ) - 1) with
  | .error e => .error e
  | .ok prev_cmd =>
      match pyGet prev_cmd.coords (-1) with
      | .error e => .error e
      | .ok prev_coords => makeFlatCurve st.roundTolerance (prev_coords.take 2) coords

/-- Embedding of `check_and_fix_flat_curve` (cff2mergePen.py lines
467-480).  `some (st2, coords2)` is a success (with the possibly
rewritten command list and the possibly expanded point coordinates);
`none` means no repair applies.  A region line against a default curve
expands the region's coordinates; a region curve against a default line
expands the default command in place (`cmd[1] = expanded; cmd[0] =
point_type`). -/
def checkAndFixFlatCurve (st : PenState) (cmd : PCmd) (point_type : Op)
    (pt_coords : List ℚ) : Except PErr (Option (PenState × List ℚ)) :=
  if point_type = Op.lineto Tag.r ∧ cmd.op = Op.curveto Tag.r Tag.r then
    match makeCurveCoordsRegion st pt_coords with
    | .error e => .error e
    | .ok pc => .ok (some (st, pc))
  else if point_type = Op.curveto Tag.r Tag.r ∧ cmd.op = Op.lineto Tag.r then
    match makeCurveCoordsDefault st cmd.coords with
    | .error e => .error e
    | .ok expanded =>
        .ok (some ({ st with commands := st.commands.set st.pt_index ⟨point_type, expanded⟩ },
                   pt_coords))
  else .ok none

/-- Embedding of `check_and_fix_clospath` (cff2mergePen.py lines
482-561).  `some st2` is a success (possibly with an incremented cursor
or an inserted skeleton command); `none` means the repair does not apply.
In the region-missing-close branch (`point_type == 'rmoveto'`), the local
`new_coords` is assigned only when the default's operator is
`rrcurveto`; for a default closing `rlineto` the subsequent
`cmd[1].append(new_coords)` raises Python's `NameError` (unbound local),
embedded as `PErr.nameError`. -/
def checkAndFixClospath (st : PenState) (cmd : PCmd) (point_type : Op)
    (pt_coords : List ℚ) : Except PErr (Option PenState) :=
  if point_type = Op.moveto Tag.r then
    match pyGet st.commands (st.prev_move_idx : ℤ) with
    | .error e => .error e
    | .ok prevMove =>
        match pyGet prevMove.coords (-1) with
        | .error e => .error e
        | .ok prev_moveto_coords =>
            match pyGet st.commands ((st.pt_index : ℤ) - 1) with
            | .error e => .error e
            | .ok prevCmd =>
                match pyGet prevCmd.coords (-1) with
                | .error e => .error e
                | .ok prv_coords =>
                    if prev_moveto_coords = lastTwo prv_coords then .ok none
                    else
                      match pyGet prevMove.coords 0 with
                      | .error e => .error e
                      | .ok prev_moveto_coords2 =>
                          match pyGet st.commands (st.pt_index : ℤ) with
                          | .error e => .error e
                          | .ok curCmd =>
                              match pyGet curCmd.coords 0 with
                              | .error e => .error e
                              | .ok prv_coords2 =>
                                  if prev_moveto_coords2 ≠ lastTwo prv_coords2 then .ok none
                                  else
                                    match
                                      ((if cmd.op = Op.curveto Tag.r Tag.r then
                                          match makeCurveCoordsRegion st prev_moveto_coords with
                                          | .error e => .error e
                                          | .ok nc => .ok (some nc)
                                        else .ok none) :
                                        Except PErr (Option (List ℚ))) with
                                    | .error e => .error e
                                    | .ok none => .error .nameError
                                    | .ok (some new_coords) =>
                                        .ok (some { st with
                                          commands := (st.commands.set st.pt_index
                                            ⟨cmd.op, cmd.coords ++ [new_coords]⟩),
                                          pt_index := st.pt_index + 1 })
  else if cmd.op = Op.moveto Tag.r then
    match pyGet st.commands (st.prev_move_idx : ℤ) with
    | .error e => .error e
    | .ok prevMove =>
        match pyGet prevMove.coords 0 with
        | .error e => .error e
        | .ok prev_moveto_coords =>
            match pyGet st.commands ((st.pt_index : ℤ) - 1) with
            | .error e => .error e
            | .ok prevCmd =>
                match pyGet prevCmd.coords 0 with
                | .error e => .error e
                | .ok prv_coords =>
                    if prev_moveto_coords = lastTwo prv_coords then .ok none
                    else
                      match pyGet prevMove.coords (-1) with
                      | .error e => .error e
                      | .ok prev_moveto_coords2 =>
                          if prev_moveto_coords2 ≠ lastTwo pt_coords then .ok none
                          else
                            match
                              ((if point_type = Op.lineto Tag.r then
                                  .ok prevMove.coords.dropLast
                                else makeCurveCoordsDefault st prevMove.coords.dropLast) :
                                Except PErr (List (List ℚ))) with
                            | .error e => .error e
                            | .ok newArgs =>
                                .ok (some { st with
                                  commands := (pyInsert st.commands st.pt_index
                                    ⟨point_type, newArgs⟩) })
  else .ok none

/-- Embedding of `add_point` (cff2mergePen.py lines 563-589): the default
master appends a fresh command; a region master merges into the command
at the cursor, trying the flat-curve repair and then the close-path
repair on an operator mismatch, re-checking the (possibly new) command at
the cursor after a close-path repair, and raising
`MergeTypeError(point_type, pt_index, len(cmd[1]), cmd[0])` when no
repair applies.  The cursor advances by one at the end. -/
def addPoint (st : PenState) (point_type : Op) (pt_coords : List ℚ) :
    Except PErr PenState :=
  match
    ((if st.m_index = 0 then
        .ok { st with commands := st.commands ++ [⟨point_type, [pt_coords]⟩] }
      else
        match pyGet st.commands (st.pt_index : ℤ) with
        | .error e => .error e
        | .ok cmd =>
            if cmd.op ≠ point_type then
              match checkAndFixFlatCurve st cmd point_type pt_coords with
              | .error e => .error e
              | .ok (some (st2, pc2)) =>
                  match pyGet st2.commands (st2.pt_index : ℤ) with
                  | .error e => .error e
                  | .ok cmd2 =>
                      .ok { st2 with commands := (st2.commands.set st2.pt_index
                              ⟨cmd2.op, cmd2.coords ++ [pc2]⟩) }
              | .ok none =>
                  match checkAndFixClospath st cmd point_type pt_coords with
                  | .error e => .error e
                  | .ok (some st2) =>
                      match pyGet st2.commands (st2.pt_index : ℤ) with
                      | .error e => .error e
                      | .ok cmd2 =>
                          if cmd2.op ≠ point_type then
                            .error (.mergeType point_type st2.pt_index
                                     cmd2.coords.length cmd2.op)
                          else
                            .ok { st2 with commands := (st2.commands.set st2.pt_index
                                    ⟨cmd2.op, cmd2.coords ++ [pt_coords]⟩) }
                  | .ok none =>
                      .error (.mergeType point_type st.pt_index cmd.coords.length cmd.op)
            else
              .ok { st with commands := (st.commands.set st.pt_index
                      ⟨cmd.op, cmd.coords ++ [pt_coords]⟩) }) : Except PErr PenState) with
  | .error e => .error e
  | .ok st2 => .ok { st2 with pt_index := st2.pt_index + 1 }

/-- One draw call of an outline trace, in absolute coordinates. -/
inductive DrawCall
  | moveTo (pt : ℚ × ℚ)
  | lineTo (pt : ℚ × ℚ)
  | curveTo (p1 p2 p3 : ℚ × ℚ)
deriving DecidableEq

/-- Embedding of `_moveTo` / `_lineTo` / `_curveToOne` (cff2mergePen.py
lines 591-606): `_p` stores the absolute point in `self._p0` and returns
it as the coordinate list; `_moveTo` records `prev_move_idx =
pt_index - 1` after `add_point` ran (because `add_point` can change
`pt_index`). -/
def drawCall (st : PenState) : DrawCall → Except PErr PenState
  | .moveTo pt =>
      match addPoint { st with p0 := pt } (Op.moveto Tag.r) [pt.1, pt.2] with
      | .error e => .error e
      | .ok st2 => .ok { st2 with prev_move_idx := st2.pt_index - 1 }
  | .lineTo pt => addPoint { st with p0 := pt } (Op.lineto Tag.r) [pt.1, pt.2]
  | .curveTo p1 p2 p3 =>
      addPoint { st with p0 := p3 } (Op.curveto Tag.r Tag.r)
        [p1.1, p1.2, p2.1, p2.2, p3.1, p3.2]

/-- Drawing a whole trace through the pen. -/
def drawTrace (st : PenState) : List DrawCall → Except PErr PenState
  | [] => .ok st
  | c :: rest =>
      match drawCall st c with
      | .error e => .error e
      | .ok st2 => drawTrace st2 rest

/-- Embedding of `restart` (cff2mergePen.py lines 614-617): reset the
cursor and last point and select the next region master. -/
def penRestart (st : PenState) (region_idx : ℕ) : PenState :=
  { st with pt_index := 0, m_index := region_idx, p0 := (0, 0) }

/-- A fresh merge pen, as constructed by `merge_charstrings`
(`CFF2CharStringMergePen([], num_masters, master_idx=0)`, default
rounding tolerance 0.5). -/
def penInit (num_masters : ℕ) : PenState :=
  { commands := [], pt_index := 0, m_index := 0, num_masters := num_masters,
    prev_move_idx := 0, p0 := (0, 0), roundTolerance := 1 / 2 }

/-- Drawing each region master's trace in turn, restarting the pen with
the region's master index (1-based), as in the region loop of
`merge_charstrings` (cff2_specializer.py lines 222-232). -/
def drawRegionsFrom : PenState → ℕ → List (List DrawCall) → Except PErr PenState
  | st, _, [] => .ok st
  | st, idx, tr :: rest =>
      match drawTrace (penRestart st idx) tr with
      | .error e => .error e
      | .ok st2 => drawRegionsFrom st2 (idx + 1) rest

/-- The drawing phase of one glyph's merge: the default master's trace
into a fresh pen, then each region master's trace. -/
def mergeGlyphDraw (num_masters : ℕ) (defaultTrace : List DrawCall)
    (regionTraces : List (List DrawCall)) : Except PErr PenState :=
  match drawTrace (penInit num_masters) defaultTrace with
  | .error e => .error e
  | .ok st0 => drawRegionsFrom st0 1 regionTraces

/-- Embedding of `merge_charstrings` (cff2_specializer.py lines 213-239):
for each glyph in order, draw the default master's trace, draw each
region's trace — a `MergeTypeError` raised there is caught and re-raised
as `MergeCharError(glyph_name, err)` — and build the merged charstring
with `getCharString(..., optimize=True)`.  Any exception propagates,
aborting the loop over the remaining glyphs. -/
def mergeCharstrings (num_masters : ℕ) (getDeltas : List ℚ → List ℚ) :
    List (String × List DrawCall × List (List DrawCall)) →
    Except PErr (List (String × List Token))
  | [] => .ok []
  | (gname, dTrace, rTraces) :: rest =>
      match drawTrace (penInit num_masters) dTrace with
      | .error e => .error e
      | .ok st0 =>
          match drawRegionsFrom st0 1 rTraces with
          | .error (.mergeType a b c dt) => .error (.mergeChar gname (.mergeType a b c dt))
          | .error e => .error e
          | .ok st =>
              match getCharString ⟨st.commands, st.num_masters⟩ getDeltas true with
              | .error e => .error e
              | .ok cs =>
                  match mergeCharstrings num_masters getDeltas rest with
                  | .error e => .error e
                  | .ok r => .ok ((gname, cs) :: r)

/-- The fatal-mismatch example traces (spec section 8): a default master
whose trace is move, line, line and a region master that emits a move
where the default recorded its second line, with no subpath-boundary
coincidence, so neither repair applies. -/
def trMismatchDefault : List DrawCall :=
  [.moveTo (0, 0), .lineTo (10, 0), .lineTo (0, 10)]

/-- The region trace for the fatal-mismatch example. -/
def trMismatchRegion : List DrawCall :=
  [.moveTo (0, 0), .lineTo (10, 0), .moveTo (20, 20)]

/-- A well-formed trace on which default and region agree. -/
def trGoodTrace : List DrawCall :=
  [.moveTo (0, 0), .lineTo (10, 0), .lineTo (0, 10)]

/-- The close-path-repair trace of the default master for the
region-missing-close case: the default closes its subpath with an
explicit `rlineto` back to the start. -/
def trCloseDefault : List DrawCall :=
  [.moveTo (0, 0), .lineTo (10, 0), .lineTo (0, 0)]

/-- The region master's trace for the region-missing-close case: it
closes the subpath implicitly and moves on. -/
def trCloseRegion : List DrawCall :=
  [.moveTo (0, 0), .lineTo (10, 0), .moveTo (20, 20)]

/-- The default master's trace for the default-missing-close case (the
claim's particular example): its subpath closes implicitly before the
next moveto. -/
def trImplicitCloseDefault : List DrawCall :=
  [.moveTo (0, 0), .lineTo (10, 0), .lineTo (0, 10), .moveTo (20, 20)]

/-- The region master's trace for the default-missing-close case: it
draws the closing line explicitly before the next moveto. -/
def trExplicitCloseRegion : List DrawCall :=
  [.moveTo (0, 0), .lineTo (10, 0), .lineTo (0, 10), .lineTo (0, 0), .moveTo (20, 20)]

end CFF2Merge

deriving instance DecidableEq for Except

namespace CFF2Merge

/-- Helper: every blend run recorded by `emitArgs` has `num_blends = 1`:
the look-ahead guard `type(args[i]) is tuple` is always false on this
program's list-valued blend arguments, so `blendlist` never grows. -/
theorem emitArgs_runs (getDeltas : List ℚ → List ℚ) (ms : ℕ) :
    ∀ (args : List Arg) (out : List Token × List (ℕ × ℕ)),
      emitArgs getDeltas ms args = .ok out → ∀ r ∈ out.2, r.1 = 1 := by
  intro args
  induction args with
  | nil =>
    intro out h r hr
    simp [emitArgs] at h
    simp [← h] at hr
  | cons a rest ih =>
    intro out h r hr
    cases a with
    | scalar q =>
      cases hrec : emitArgs getDeltas ms rest with
      | error e => simp [emitArgs, hrec] at h
      | ok pr =>
        simp [emitArgs, hrec] at h
        rcases h with rfl
        exact ih pr hrec r hr
    | blend v =>
      cases v with
      | nil => simp [emitArgs] at h
      | cons v0 vt =>
        cases hrec : emitArgs getDeltas ms rest with
        | error e => simp [emitArgs, hrec] at h
        | ok pr =>
          simp [emitArgs, hrec] at h
          rcases h with rfl
          simp at hr
          rcases hr with rfl | hr
          · rfl
          · exact ih pr hrec r hr

/-- Helper: every blend run recorded by `commandsToProgram` has
`num_blends = 1`. -/
theorem commandsToProgram_runs (getDeltas : List ℚ → List ℚ) (ms : ℕ) :
    ∀ (cmds : List SCmd) (out : List Token × List (ℕ × ℕ)),
      commandsToProgram getDeltas ms cmds = .ok out → ∀ r ∈ out.2, r.1 = 1 := by
  intro cmds
  induction cmds with
  | nil =>
    intro out h r hr
    simp [commandsToProgram] at h
    simp [← h] at hr
  | cons c rest ih =>
    intro out h r hr
    cases h1 : emitArgs getDeltas ms c.args with
    | error e => simp [commandsToProgram, h1] at h
    | ok pr1 =>
      cases h2 : commandsToProgram getDeltas ms rest with
      | error e => simp [commandsToProgram, h1, h2] at h
      | ok pr2 =>
        simp [commandsToProgram, h1, h2] at h
        rcases h with rfl
        simp at hr
        rcases hr with hr | hr
        · exact emitArgs_runs getDeltas ms c.args pr1 h1 r hr
        · exact ih pr2 h2 r hr

/-- C1: the claim says that for every maximal run of consecutive
blend-vector arguments the emitter writes all the run's default-master
values, then all its per-region deltas, then the run length and one
`blend` marker.  Evaluating the embedded `commandsToProgram` on a command
holding two consecutive two-master blend vectors shows the code instead
emits each vector as its own run of length one (`100, 5, 1, blend, 200,
10, 1, blend`), because the look-ahead that should have combined them
tests `type(args[i]) is tuple` while blend arguments are Python lists;
the claimed output would have been `100, 200, 5, 10, 2, blend`. -/
theorem c1_consecutive_blend_vectors_not_combined :
    commandsToProgram exampleDeltas 513
      [⟨Op.lineto Tag.r, [Arg.blend [100, 105], Arg.blend [200, 210]]⟩] =
    .ok ([.num 100, .num 5, .num 1, .blendTok, .num 200, .num 10, .num 1, .blendTok,
          .opTok (Op.lineto Tag.r)], [(1, 2), (1, 2)]) := by
  with_unfolding_all rfl

/-- C2 (counterexample): the claim asserts `1 + run_length × N ≤ maxstack`
for every emitted blend run, for any command list and any `maxstack`.
With `maxstack = 2` and a single three-master blend vector the emitter
still emits a run with `num_blends = 1` and `N = 3`, which requests
`1 + 1 × 3 = 4 > 2` stack slots: the bound is not enforced for the first
vector of a run. -/
theorem c2_stack_bound_counterexample :
    commandsToProgram exampleDeltas 2 [⟨Op.lineto Tag.r, [Arg.blend [0, 5, 7]]⟩] =
      .ok ([.num 0, .num 5, .num 7, .num 1, .blendTok, .opTok (Op.lineto Tag.r)], [(1, 3)]) ∧
    ¬ (1 + 1 * 3 ≤ 2) := by
  constructor
  · with_unfolding_all rfl
  · decide

/-- C2 (amended): every blend run emitted by `commandsToProgram` consists
of exactly one vector (`run_length = 1`), and consequently the claimed
bound `1 + run_length × N ≤ maxstack` holds for a run whenever
`maxstack ≥ N + 1`, where `N` is the run's master count; the emitter
itself never checks the first (and only) vector of a run against
`maxstack`. -/
theorem c2_blend_run_stack_bound (getDeltas : List ℚ → List ℚ) (ms : ℕ)
    (cmds : List SCmd) (out : List Token × List (ℕ × ℕ))
    (h : commandsToProgram getDeltas ms cmds = .ok out) :
    ∀ r ∈ out.2, r.1 = 1 ∧ (r.2 + 1 ≤ ms → 1 + r.1 * r.2 ≤ ms) := by
  intro r hr
  have h1 := commandsToProgram_runs getDeltas ms cmds out h r hr
  refine ⟨h1, fun hms => ?_⟩
  rw [h1]
  omega

/-- C2 (witness): the amended bound theorem applied to a concrete
three-master blend vector with `maxstack = 5`. -/
theorem c2_blend_run_stack_bound_witness :
    (commandsToProgram exampleDeltas 5 [⟨Op.lineto Tag.r, [Arg.blend [0, 5, 7]]⟩]).isOk = true ∧
    1 + 1 * 3 ≤ 5 := by
  have h : commandsToProgram exampleDeltas 5 [⟨Op.lineto Tag.r, [Arg.blend [0, 5, 7]]⟩] =
      .ok ([.num 0, .num 5, .num 7, .num 1, .blendTok, .opTok (Op.lineto Tag.r)], [(1, 3)]) := by
    with_unfolding_all rfl
  refine ⟨by rw [h]; rfl, ?_⟩
  have h2 := c2_blend_run_stack_bound exampleDeltas 5 _ _ h (1, 3) (by simp)
  exact h2.2 (by norm_num)

/-- C5 (counterexample): the claim says that with `preserveTopology=true`
no command is deleted and no point-count-changing rewrite occurs.  With
`preserveTopology=true` the specializer still deletes commands: two
adjacent `rlineto`s are merged into one command by the pass-5 greedy
merge, and two adjacent `rmoveto`s are coalesced into a single `rmoveto`
(one positioning argument group where there were two) by pass 1, which is
not guarded by `preserveTopology`. -/
theorem c5_preserve_topology_counterexample :
    specializeCommands true 48
      [⟨Op.lineto Tag.r, [Arg.scalar 1, Arg.scalar 2]⟩,
       ⟨Op.lineto Tag.r, [Arg.scalar 3, Arg.scalar 4]⟩] =
      .ok [⟨Op.lineto Tag.r, [Arg.scalar 1, Arg.scalar 2, Arg.scalar 3, Arg.scalar 4]⟩] ∧
    specializeCommands true 48
      [⟨Op.moveto Tag.r, [Arg.scalar 1, Arg.scalar 1]⟩,
       ⟨Op.moveto Tag.r, [Arg.scalar 2, Arg.scalar 2]⟩] =
      .ok [⟨Op.moveto Tag.r, [Arg.scalar 3, Arg.scalar 3]⟩] := by
  exact ⟨by with_unfolding_all rfl, by with_unfolding_all rfl⟩

/-- C5 (amended): with `preserveTopology=true` the topology-changing
cleanup pass is skipped, so a zero-displacement line survives as a drawn
argument group (here as `hlineto [0]`) — though commands can still be
deleted by moveto coalescing and by the pass-5 adjacent merge, which
preserve the drawing argument groups; with `preserveTopology=false`, a
zero-displacement line is deleted, a zero-zero curve is demoted to a
line, and adjacent same-axis lines are merged by summing their single
offsets.  Each behaviour is exhibited by evaluating the embedded
`specializeCommands` on a constructed input. -/
theorem c5_topology_flag_behaviour :
    specializeCommands true 48
      [⟨Op.moveto Tag.r, [Arg.scalar 5, Arg.scalar 5]⟩,
       ⟨Op.lineto Tag.r, [Arg.scalar 0, Arg.scalar 0]⟩,
       ⟨Op.lineto Tag.r, [Arg.scalar 3, Arg.scalar 4]⟩] =
      .ok [⟨Op.moveto Tag.r, [Arg.scalar 5, Arg.scalar 5]⟩,
           ⟨Op.lineto Tag.h, [Arg.scalar 0]⟩,
           ⟨Op.lineto Tag.r, [Arg.scalar 3, Arg.scalar 4]⟩] ∧
    specializeCommands false 48
      [⟨Op.moveto Tag.r, [Arg.scalar 5, Arg.scalar 5]⟩,
       ⟨Op.lineto Tag.r, [Arg.scalar 0, Arg.scalar 0]⟩,
       ⟨Op.lineto Tag.r, [Arg.scalar 3, Arg.scalar 4]⟩] =
      .ok [⟨Op.moveto Tag.r, [Arg.scalar 5, Arg.scalar 5]⟩,
           ⟨Op.lineto Tag.r, [Arg.scalar 3, Arg.scalar 4]⟩] ∧
    specializeCommands false 48
      [⟨Op.moveto Tag.r, [Arg.scalar 1, Arg.scalar 1]⟩,
       ⟨Op.curveto Tag.r Tag.r,
        [Arg.scalar 0, Arg.scalar 0, Arg.scalar 2, Arg.scalar 0, Arg.scalar 0, Arg.scalar 0]⟩] =
      .ok [⟨Op.moveto Tag.r, [Arg.scalar 1, Arg.scalar 1]⟩,
           ⟨Op.lineto Tag.h, [Arg.scalar 2]⟩] ∧
    specializeCommands false 48
      [⟨Op.moveto Tag.r, [Arg.scalar 1, Arg.scalar 1]⟩,
       ⟨Op.lineto Tag.r, [Arg.scalar 5, Arg.scalar 0]⟩,
       ⟨Op.lineto Tag.r, [Arg.scalar 3, Arg.scalar 0]⟩] =
      .ok [⟨Op.moveto Tag.r, [Arg.scalar 1, Arg.scalar 1]⟩,
           ⟨Op.lineto Tag.h, [Arg.scalar 8]⟩] := by
  exact ⟨by with_unfolding_all rfl, by with_unfolding_all rfl,
         by with_unfolding_all rfl, by with_unfolding_all rfl⟩

/-- C6 (counterexample): the claim says a mergeable adjacent pair is
merged exactly when the combined operand count stays below
`maxstack − 1`.  With `maxstack = 5` and two two-argument `rlineto`s the
combined count is `4 = maxstack − 1`, which is not below `maxstack − 1`,
yet the pass-5 merge fires (the source condition is
`len(args1) + len(args2) < maxstack`). -/
theorem c6_headroom_counterexample :
    pass5 5
      [⟨Op.lineto Tag.r, [Arg.scalar 1, Arg.scalar 2]⟩,
       ⟨Op.lineto Tag.r, [Arg.scalar 3, Arg.scalar 4]⟩] =
      [⟨Op.lineto Tag.r, [Arg.scalar 1, Arg.scalar 2, Arg.scalar 3, Arg.scalar 4]⟩] ∧
    ¬ (2 + 2 < 5 - 1) := by
  exact ⟨by with_unfolding_all rfl, by decide⟩

/-- C6 (amended): in the greedy adjacent-merge pass, a pair of adjacent
commands with a defined combined operator (`newOpOf`) is merged into one
command with the concatenated argument lists exactly when the combined
operand count is below `maxstack` (that is, at most `maxstack − 1`,
keeping the stack depth from exceeding `maxstack − 1` as headroom for the
subroutinizer); otherwise, and when no combined operator is defined, the
pair is left unmerged. -/
theorem c6_adjacent_merge_condition (maxstack : ℕ) (c1 c2 : SCmd) :
    pass5 maxstack [c1, c2] =
      match newOpOf c1 c2 with
      | some nop =>
          if c1.args.length + c2.args.length < maxstack then
            [⟨nop, c1.args ++ c2.args⟩]
          else [c1, c2]
      | none => [c1, c2] := by
  cases h : newOpOf c1 c2 <;> simp [pass5, h]

/-- Helper: folding `max` over entries all equal to the seed returns the
seed. -/
theorem foldl_max_of_allEq :
    ∀ (xs : List ℚ) (x : ℚ), (∀ y ∈ xs, y = x) → xs.foldl max x = x := by
  intro xs
  induction xs with
  | nil => intro x _; rfl
  | cons z zs ih =>
    intro x h
    have hz : z = x := h z (by simp)
    subst hz
    simp only [List.foldl_cons, max_self]
    exact ih z (fun y hy => h y (by simp [hy]))

/-- Helper: folding `min` over entries all equal to the seed returns the
seed. -/
theorem foldl_min_of_allEq :
    ∀ (xs : List ℚ) (x : ℚ), (∀ y ∈ xs, y = x) → xs.foldl min x = x := by
  intro xs
  induction xs with
  | nil => intro x _; rfl
  | cons z zs ih =>
    intro x h
    have hz : z = x := h z (by simp)
    subst hz
    simp only [List.foldl_cons, min_self]
    exact ih z (fun y hy => h y (by simp [hy]))

/-- Helper: every member of `x :: xs` is bounded by the `max` fold (the
value Python's `max` computes). -/
theorem le_foldl_max : ∀ (xs : List ℚ) (x y : ℚ), y ∈ x :: xs → y ≤ xs.foldl max x := by
  intro xs
  induction xs with
  | nil => intro x y hy; simp at hy; simp [hy]
  | cons z zs ih =>
    intro x y hy
    simp only [List.foldl_cons]
    rcases (by simpa using hy : y = x ∨ y = z ∨ y ∈ zs) with rfl | rfl | hm
    · exact le_trans (le_max_left y z) (ih (max y z) (max y z) (by simp))
    · exact le_trans (le_max_right x y) (ih (max x y) (max x y) (by simp))
    · exact ih (max x z) y (by simp [hm])

/-- Helper: the `min` fold (the value Python's `min` computes) is bounded
by every member of `x :: xs`. -/
theorem foldl_min_le : ∀ (xs : List ℚ) (x y : ℚ), y ∈ x :: xs → xs.foldl min x ≤ y := by
  intro xs
  induction xs with
  | nil => intro x y hy; simp at hy; simp [hy]
  | cons z zs ih =>
    intro x y hy
    simp only [List.foldl_cons]
    rcases (by simpa using hy : y = x ∨ y = z ∨ y ∈ zs) with rfl | rfl | hm
    · exact le_trans (ih (min y z) (min y z) (by simp)) (min_le_left y z)
    · exact le_trans (ih (min x y) (min x y) (by simp)) (min_le_right x y)
    · exact ih (min x z) y (by simp [hm])

/-- C10: `pointsDiffer` returns true exactly when all entries of its
(non-empty) input are equal — its maximum equals its minimum — despite
its name; consequently, in the scalar branch of `merge_PrivateDicts`, the
variation model is called on a non-list private-dict field precisely when
every master holds the same value, and when the masters' values actually
differ the default master's value (`values[0]`) is stored unchanged with
no deltas computed. -/
theorem c10_pointsDiffer_inverted (l : List ℚ) (model : List ℚ → List ℚ) (hne : l ≠ []) :
    (pointsDiffer l = .ok true ↔ ∀ x ∈ l, ∀ y ∈ l, x = y) ∧
    ((∀ x ∈ l, ∀ y ∈ l, x = y) → mergeScalarPrivateValue l model = .ok (.blended (model l))) ∧
    (∀ v, l.head? = some v → ¬(∀ x ∈ l, ∀ y ∈ l, x = y) →
       mergeScalarPrivateValue l model = .ok (.plain v)) := by
  match l, hne with
  | x :: xs, _ =>
    have hmax : pyMax (x :: xs) = .ok (xs.foldl max x) := rfl
    have hmin : pyMin (x :: xs) = .ok (xs.foldl min x) := rfl
    have hpd : pointsDiffer (x :: xs) = .ok (xs.foldl min x == xs.foldl max x) := by
      simp [pointsDiffer, hmax, hmin]
    have hiff : (pointsDiffer (x :: xs) = .ok true ↔ ∀ a ∈ x :: xs, ∀ b ∈ x :: xs, a = b) := by
      rw [hpd]
      constructor
      · intro h a ha b hb
        have heq : xs.foldl min x = xs.foldl max x := by
          simpa [beq_iff_eq] using h
        have h1 : a ≤ xs.foldl max x := le_foldl_max xs x a ha
        have h2 : xs.foldl min x ≤ a := foldl_min_le xs x a ha
        have h3 : b ≤ xs.foldl max x := le_foldl_max xs x b hb
        have h4 : xs.foldl min x ≤ b := foldl_min_le xs x b hb
        have ha2 : a = xs.foldl max x := le_antisymm h1 (heq ▸ h2)
        have hb2 : b = xs.foldl max x := le_antisymm h3 (heq ▸ h4)
        rw [ha2, hb2]
      · intro h
        have hall : ∀ y ∈ xs, y = x := fun y hy => h y (by simp [hy]) x (by simp)
        rw [foldl_max_of_allEq xs x hall, foldl_min_of_allEq xs x hall]
        simp
    refine ⟨hiff, ?_, ?_⟩
    · intro h
      have hok : pointsDiffer (x :: xs) = .ok true := hiff.mpr h
      simp [mergeScalarPrivateValue, hok]
    · intro v hv h
      have hvx : x = v := by simpa using hv
      subst hvx
      have hfalse : (xs.foldl min x == xs.foldl max x) = false := by
        cases hb : (xs.foldl min x == xs.foldl max x) with
        | true => exact absurd (hiff.mp (by rw [hpd, hb])) h
        | false => rfl
      simp [mergeScalarPrivateValue, hpd, hfalse]

/-- C10 (witness): two masters with differing values `1` and `2`;
`pointsDiffer` returns false and the default value is stored unchanged,
as the theorem predicts. -/
theorem c10_pointsDiffer_inverted_witness :
    ([(1 : ℚ), 2] ≠ []) ∧
    pointsDiffer [(1 : ℚ), 2] = .ok false ∧
    mergeScalarPrivateValue [(1 : ℚ), 2] exampleDeltas = .ok (.plain 1) := by
  refine ⟨by simp, by with_unfolding_all rfl, ?_⟩
  have h := (c10_pointsDiffer_inverted [(1 : ℚ), 2] exampleDeltas (by simp)).2.2 1 rfl
  apply h
  intro hall
  have h12 := hall 1 (by simp) 2 (by simp)
  norm_num at h12

/-- Helper: a list whose `variesList` check is false is constant. -/
theorem variesList_false_allEq (x : ℚ) (xs : List ℚ) (h : variesList (x :: xs) = false) :
    ∀ y ∈ xs, y = x := by
  intro y hy
  simp [variesList, List.any_eq_false] at h
  exact h y hy

/-- Helper: `reorderCols` only produces a blend argument when the
relative vector's `max` and `min` differ, so every blend argument it
produces varies. -/
theorem reorderCols_blend_varies :
    ∀ (cols : List (List ℚ)) (is_x : Bool) (x0 y0 : List ℚ) (args : List Arg) (x1 y1 : List ℚ),
      reorderCols cols is_x x0 y0 = .ok (args, x1, y1) →
      ∀ a ∈ args, ∀ v, a = .blend v → variesList v = true := by
  intro cols
  induction cols with
  | nil =>
    intro is_x x0 y0 args x1 y1 h a ha v hv
    simp [reorderCols] at h
    rcases h with ⟨rfl, _, _⟩
    simp at ha
  | cons coord rest ih =>
    intro is_x x0 y0 args x1 y1 h a ha v hv
    rw [reorderCols] at h
    cases hmax : pyMax ((coord.zip (if is_x then x0 else y0)).map (fun p => p.1 - p.2)) with
    | error e => rw [hmax] at h; exact absurd h (by simp)
    | ok mx =>
      cases hmin : pyMin ((coord.zip (if is_x then x0 else y0)).map (fun p => p.1 - p.2)) with
      | error e => rw [hmax, hmin] at h; exact absurd h (by simp)
      | ok mn =>
        rw [hmax, hmin] at h
        cases hrec : reorderCols rest (!is_x) (if is_x then coord else x0)
            (if is_x then y0 else coord) with
        | error e => simp only [hrec] at h; exact absurd h (by simp)
        | ok pr =>
          obtain ⟨args2, xf, yf⟩ := pr
          simp only [hrec] at h
          simp at h
          rcases h with ⟨rfl, rfl, rfl⟩
          simp at ha
          rcases ha with rfl | ha
          · by_cases hmm : mx = mn
            · simp [hmm] at hv
            · simp [hmm] at hv
              subst hv
              set rel := (coord.zip (if is_x then x0 else y0)).map (fun p => p.1 - p.2) with hrel
              cases hr : rel with
              | nil => rw [hr] at hmax; simp [pyMax] at hmax
              | cons r0 rs =>
                cases hvr : variesList (r0 :: rs) with
                | true => rfl
                | false =>
                  exfalso
                  have hall := variesList_false_allEq r0 rs hvr
                  rw [hr] at hmax hmin
                  simp [pyMax] at hmax
                  simp [pyMin] at hmin
                  rw [foldl_max_of_allEq rs r0 hall] at hmax
                  rw [foldl_min_of_allEq rs r0 hall] at hmin
                  exact hmm (by rw [← hmax, ← hmin])
          · exact ih (!is_x) _ _ args2 xf yf hrec a ha v hv

/-- Helper: `reorderGo` only produces blend arguments that vary. -/
theorem reorderGo_blend_varies :
    ∀ (cmds : List PCmd) (x0 y0 : List ℚ) (out : List SCmd),
      reorderGo cmds x0 y0 = .ok out →
      ∀ c ∈ out, ∀ a ∈ c.args, ∀ v, a = .blend v → variesList v = true := by
  intro cmds
  induction cmds with
  | nil =>
    intro x0 y0 out h c hc a ha v hv
    simp [reorderGo] at h
    simp [h] at hc
  | cons cmd rest ih =>
    intro x0 y0 out h c hc a ha v hv
    cases h1 : reorderCols (zipStar cmd.coords) true x0 y0 with
    | error e => simp [reorderGo, h1] at h
    | ok pr =>
      obtain ⟨args, xf, yf⟩ := pr
      cases h2 : reorderGo rest xf yf with
      | error e => simp [reorderGo, h1, h2] at h
      | ok r =>
        simp [reorderGo, h1, h2] at h
        subst h
        simp at hc
        rcases hc with rfl | hc
        · exact reorderCols_blend_varies (zipStar cmd.coords) true x0 y0 args xf yf h1 a ha v hv
        · exact ih xf yf r h2 c hc a ha v hv

/-- Helper: `reorder_blend_args` never leaves a degenerate all-equal
blend vector in its output. -/
theorem reorder_noDegenerateBlend (nm : ℕ) (cmds : List PCmd) (out : List SCmd)
    (h : reorderBlendArgs nm cmds = .ok out) :
    noDegenerateBlend out = true := by
  have hgo := reorderGo_blend_varies cmds (List.replicate nm 0) (List.replicate nm 0) out h
  unfold noDegenerateBlend
  refine List.all_eq_true.mpr ?_
  intro c hc
  refine List.all_eq_true.mpr ?_
  intro a ha
  cases ha2 : a with
  | scalar q => rfl
  | blend v =>
    have hvv := hgo c hc a ha v ha2
    simp [ha2, hvv]

/-- Helper: every column of the transpose of `nm` identical rows is a
constant vector of length `nm`. -/
theorem zipStar_replicate_mem (nm : ℕ) (r c : List ℚ)
    (hc : c ∈ zipStar (List.replicate nm r)) : ∃ q, c = List.replicate nm q := by
  unfold zipStar at hc
  simp only [List.mem_map] at hc
  obtain ⟨i, _, rfl⟩ := hc
  exact ⟨r.getD i 0, List.map_replicate⟩

/-- Helper: Python `max` of a constant list is its value. -/
theorem foldl_max_replicate (k : ℕ) (d : ℚ) : (List.replicate k d).foldl max d = d :=
  foldl_max_of_allEq (List.replicate k d) d (fun _ hy => List.eq_of_mem_replicate hy)

/-- Helper: Python `min` of a constant list is its value. -/
theorem foldl_min_replicate (k : ℕ) (d : ℚ) : (List.replicate k d).foldl min d = d :=
  foldl_min_of_allEq (List.replicate k d) d (fun _ hy => List.eq_of_mem_replicate hy)

/-- Helper: on constant columns (identical masters), `reorderCols`
succeeds, produces only scalars, and keeps the channel states constant. -/
theorem reorderCols_replicate (nm : ℕ) (hnm : 1 ≤ nm) :
    ∀ (cols : List (List ℚ)) (is_x : Bool) (x0 y0 : List ℚ) (a b : ℚ),
      (∀ c ∈ cols, ∃ q, c = List.replicate nm q) →
      x0 = List.replicate nm a → y0 = List.replicate nm b →
      ∃ args xf yf, reorderCols cols is_x x0 y0 = .ok (args, xf, yf) ∧
        (∀ g ∈ args, ∃ q, g = Arg.scalar q) ∧
        (∃ a2, xf = List.replicate nm a2) ∧ (∃ b2, yf = List.replicate nm b2) := by
  intro cols
  induction cols with
  | nil =>
    intro is_x x0 y0 a b _ hx hy
    exact ⟨[], x0, y0, rfl, by simp, ⟨a, hx⟩, ⟨b, hy⟩⟩
  | cons coord rest ih =>
    intro is_x x0 y0 a b hcols hx hy
    obtain ⟨q, hq⟩ := hcols coord (by simp)
    obtain ⟨k, hk⟩ := Nat.exists_eq_add_of_le hnm
    have hprev : (if is_x then x0 else y0) = List.replicate nm (if is_x then a else b) := by
      cases is_x <;> simp [hx, hy]
    have hrel : (coord.zip (if is_x then x0 else y0)).map (fun p => p.1 - p.2) =
        List.replicate nm (q - (if is_x then a else b)) := by
      rw [hq, hprev, List.zip_replicate', List.map_replicate]
    have hrel2 : List.replicate nm (q - (if is_x then a else b)) =
        (q - (if is_x then a else b)) :: List.replicate k (q - (if is_x then a else b)) := by
      rw [hk, Nat.add_comm 1 k]
      simp [List.replicate_succ]
    have hmax : pyMax ((coord.zip (if is_x then x0 else y0)).map (fun p => p.1 - p.2)) =
        .ok (q - (if is_x then a else b)) := by
      rw [hrel, hrel2]
      simp [pyMax, foldl_max_replicate]
    have hmin : pyMin ((coord.zip (if is_x then x0 else y0)).map (fun p => p.1 - p.2)) =
        .ok (q - (if is_x then a else b)) := by
      rw [hrel, hrel2]
      simp [pyMin, foldl_min_replicate]
    obtain ⟨args2, xf, yf, hrec, hsc, hxa, hyb⟩ :=
      ih (!is_x) (if is_x then coord else x0) (if is_x then y0 else coord)
        (if is_x then q else a) (if is_x then b else q)
        (fun c hc => hcols c (by simp [hc]))
        (by cases is_x <;> simp [hx, hq])
        (by cases is_x <;> simp [hy, hq])
    refine ⟨Arg.scalar (((coord.zip (if is_x then x0 else y0)).map
        (fun p => p.1 - p.2)).headD 0) :: args2, xf, yf, ?_, ?_, hxa, hyb⟩
    · rw [reorderCols]
      simp only [hmax, hmin, hrec]
      simp
    · intro g hg
      rcases (by simpa using hg : g = Arg.scalar _ ∨ g ∈ args2) with rfl | hg2
      · exact ⟨_, rfl⟩
      · exact hsc g hg2

/-- Helper: on identical masters, `reorderGo` succeeds and produces only
scalar arguments. -/
theorem reorderGo_replicate (nm : ℕ) (hnm : 1 ≤ nm) :
    ∀ (cmds : List PCmd) (x0 y0 : List ℚ) (a b : ℚ),
      (∀ c ∈ cmds, ∃ r, c.coords = List.replicate nm r) →
      x0 = List.replicate nm a → y0 = List.replicate nm b →
      ∃ out, reorderGo cmds x0 y0 = .ok out ∧
        ∀ c ∈ out, ∀ g ∈ c.args, ∃ q, g = Arg.scalar q := by
  intro cmds
  induction cmds with
  | nil => intro x0 y0 a b _ _ _; exact ⟨[], rfl, by simp⟩
  | cons cmd rest ih =>
    intro x0 y0 a b hcmds hx hy
    obtain ⟨r, hr⟩ := hcmds cmd (by simp)
    obtain ⟨args, xf, yf, hcols, hsc, ⟨a2, hxa⟩, ⟨b2, hyb⟩⟩ :=
      reorderCols_replicate nm hnm (zipStar cmd.coords) true x0 y0 a b
        (fun c hc => by rw [hr] at hc; exact zipStar_replicate_mem nm r c hc) hx hy
    obtain ⟨out2, hgo, hsc2⟩ := ih xf yf a2 b2
      (fun c hc => hcmds c (by simp [hc])) hxa hyb
    refine ⟨⟨cmd.op, args⟩ :: out2, ?_, ?_⟩
    · rw [reorderGo]
      simp only [hcols, hgo]
    · intro c hc g hg
      rcases (by simpa using hc : c = (⟨cmd.op, args⟩ : SCmd) ∨ c ∈ out2) with rfl | hc2
      · exact hsc g hg
      · exact hsc2 c hc2 g hg

/-- C7: the collapse rule of `reorder_blend_args` always fires when it
can: in the reduced command list no blend vector has all entries equal
(`noDegenerateBlend`), and when the N masters are identical — every
command's coordinate groups are N copies of one group — every reduced
argument is a collapsed bare scalar (`allScalar`). -/
theorem c7_all_equal_collapse (nm : ℕ) (cmds : List PCmd) (out : List SCmd)
    (h : reorderBlendArgs nm cmds = .ok out) :
    noDegenerateBlend out = true ∧
    ((1 ≤ nm ∧ ∀ c ∈ cmds, ∃ r, c.coords = List.replicate nm r) → allScalar out = true) := by
  refine ⟨reorder_noDegenerateBlend nm cmds out h, ?_⟩
  rintro ⟨hnm, hrep⟩
  obtain ⟨out2, hgo, hsc⟩ := reorderGo_replicate nm hnm cmds
    (List.replicate nm 0) (List.replicate nm 0) 0 0 hrep rfl rfl
  have hout : out = out2 := by
    have h2 := h
    rw [reorderBlendArgs] at h2
    rw [h2] at hgo
    exact (Except.ok.injEq _ _).mp hgo
  subst hout
  unfold allScalar
  refine List.all_eq_true.mpr ?_
  intro c hc
  refine List.all_eq_true.mpr ?_
  intro g hg
  obtain ⟨q, rfl⟩ := hsc c hc g hg
  rfl

/-- C7 (witness): merging two identical masters — a move and a line
repeated twice — yields only collapsed scalars and no degenerate blend
vectors. -/
theorem c7_all_equal_collapse_witness :
    noDegenerateBlend [⟨Op.moveto Tag.r, [Arg.scalar 3, Arg.scalar 4]⟩,
                       ⟨Op.lineto Tag.r, [Arg.scalar 2, Arg.scalar 2]⟩] = true ∧
    allScalar [⟨Op.moveto Tag.r, [Arg.scalar 3, Arg.scalar 4]⟩,
               ⟨Op.lineto Tag.r, [Arg.scalar 2, Arg.scalar 2]⟩] = true := by
  have h : reorderBlendArgs 2
      [⟨Op.moveto Tag.r, [[3, 4], [3, 4]]⟩, ⟨Op.lineto Tag.r, [[5, 6], [5, 6]]⟩] =
      .ok [⟨Op.moveto Tag.r, [Arg.scalar 3, Arg.scalar 4]⟩,
           ⟨Op.lineto Tag.r, [Arg.scalar 2, Arg.scalar 2]⟩] := by
    with_unfolding_all rfl
  have hc := c7_all_equal_collapse 2 _ _ h
  refine ⟨hc.1, hc.2 ⟨by norm_num, ?_⟩⟩
  intro c hcm
  rcases (by simpa using hcm :
      c = (⟨Op.moveto Tag.r, [[(3 : ℚ), 4], [3, 4]]⟩ : PCmd) ∨
      c = (⟨Op.lineto Tag.r, [[(5 : ℚ), 6], [5, 6]]⟩ : PCmd)) with rfl | rfl
  · exact ⟨[3, 4], rfl⟩
  · exact ⟨[5, 6], rfl⟩

/-- C8 (counterexample): the claim says a move command's coordinates are
not converted to relative-to-previous form before the variation model is
called.  `reorder_blend_args` applies the relative conversion to every
command including movetos: with two masters and two absolute movetos, the
second moveto's varying x-coordinate is stored (and later handed to
`getDeltas`) as the relative vector `[20, 21]`, not the absolute
`[30, 33]`. -/
theorem c8_moveto_relative_counterexample :
    reorderBlendArgs 2
      [⟨Op.moveto Tag.r, [[10, 0], [12, 0]]⟩, ⟨Op.moveto Tag.r, [[30, 0], [33, 0]]⟩] =
      .ok [⟨Op.moveto Tag.r, [Arg.blend [10, 12], Arg.scalar 0]⟩,
           ⟨Op.moveto Tag.r, [Arg.blend [20, 21], Arg.scalar 0]⟩] ∧
    Arg.blend [20, 21] ≠ Arg.blend [30, 33] := by
  refine ⟨by with_unfolding_all rfl, ?_⟩
  intro hcontra
  simp only [Arg.blend.injEq, List.cons.injEq] at hcontra
  norm_num at hcontra

/-- C8 (amended): move commands are converted to relative form exactly
like every other command — renaming operators does not change the reduced
arguments at all — and the emitter writes the stored default-master value
`arg[0]` raw: the program is unchanged under any variation model whose
index-0 output differs, since `deltas[0]` is dropped (`deltas[1:]`). -/
theorem c8_raw_default_model_independent :
    (∀ (f : Op → Op) (nm : ℕ) (cmds : List PCmd),
       reorderBlendArgs nm (cmds.map (fun c => ⟨f c.op, c.coords⟩)) =
       Except.map (fun l => l.map (fun c => (⟨f c.op, c.args⟩ : SCmd)))
         (reorderBlendArgs nm cmds)) ∧
    (∀ (d g : List ℚ → List ℚ) (ms : ℕ), (∀ w, (d w).drop 1 = (g w).drop 1) →
       ∀ args, emitArgs d ms args = emitArgs g ms args) ∧
    (∀ (d : List ℚ → List ℚ) (ms : ℕ) (v0 : ℚ) (vt : List ℚ) (rest : List Arg)
       (p : List Token) (runs : List (ℕ × ℕ)),
       emitArgs d ms rest = .ok (p, runs) →
       emitArgs d ms (Arg.blend (v0 :: vt) :: rest) =
         .ok (.num v0 :: (((d (v0 :: vt)).drop 1).map .num ++ (.num 1 :: .blendTok :: p)),
              (1, vt.length + 1) :: runs)) := by
  refine ⟨?_, ?_, ?_⟩
  · intro f nm cmds
    suffices hgo : ∀ (cs : List PCmd) (x0 y0 : List ℚ),
        reorderGo (cs.map (fun c => ⟨f c.op, c.coords⟩)) x0 y0 =
        Except.map (fun l => l.map (fun c => (⟨f c.op, c.args⟩ : SCmd))) (reorderGo cs x0 y0) by
      exact hgo cmds _ _
    intro cs
    induction cs with
    | nil => intro x0 y0; rfl
    | cons cmd rest ih =>
      intro x0 y0
      cases h1 : reorderCols (zipStar cmd.coords) true x0 y0 with
      | error e => simp [reorderGo, h1, Except.map]
      | ok pr =>
        obtain ⟨args, xf, yf⟩ := pr
        cases h2 : reorderGo rest xf yf with
        | error e => simp [reorderGo, h1, ih, h2, Except.map]
        | ok r => simp [reorderGo, h1, ih, h2, Except.map]
  · intro d g ms hdg args
    induction args with
    | nil => rfl
    | cons a rest ih =>
      cases a with
      | scalar q => rw [emitArgs, emitArgs, ih]
      | blend v =>
        cases v with
        | nil => rfl
        | cons v0 vt =>
          rw [emitArgs, emitArgs, ih]
          cases emitArgs g ms rest with
          | error e => rfl
          | ok pr => rw [hdg (v0 :: vt)]
  · intro d ms v0 vt rest p runs hrest
    simp [emitArgs, hrest]

/-- C8 (witness): the model-independence part applied to the concrete
model and a junk model whose index-0 output is `999`: the emitted tokens
agree. -/
theorem c8_raw_default_model_independent_witness :
    emitArgs exampleDeltas 513 [Arg.blend [7, 9]] =
    emitArgs exampleDeltasJunk 513 [Arg.blend [7, 9]] :=
  c8_raw_default_model_independent.2.1 exampleDeltas exampleDeltasJunk 513
    (fun _ => rfl) [Arg.blend [7, 9]]

/-- Helper: every column of `zip(*rows)` is non-empty (it has one entry
per row, and there are no columns when there are no rows). -/
theorem zipStar_mem_ne_nil :
    ∀ (rows : List (List ℚ)) (c : List ℚ), c ∈ zipStar rows → c ≠ [] := by
  intro rows c hc
  cases rows with
  | nil => simp [zipStar] at hc
  | cons r rs =>
    unfold zipStar at hc
    simp only [List.mem_map] at hc
    obtain ⟨i, _, rfl⟩ := hc
    simp

/-- Helper: with non-empty channel states and non-empty columns,
`reorderCols` always succeeds (Python's `max`/`min` are never handed an
empty list) and keeps the channel states non-empty. -/
theorem reorderCols_ok :
    ∀ (cols : List (List ℚ)) (is_x : Bool) (x0 y0 : List ℚ),
      x0 ≠ [] → y0 ≠ [] → (∀ c ∈ cols, c ≠ []) →
      ∃ args xf yf, reorderCols cols is_x x0 y0 = .ok (args, xf, yf) ∧ xf ≠ [] ∧ yf ≠ [] := by
  intro cols
  induction cols with
  | nil => intro is_x x0 y0 hx hy _; exact ⟨[], x0, y0, rfl, hx, hy⟩
  | cons coord rest ih =>
    intro is_x x0 y0 hx hy hcols
    have hcoord : coord ≠ [] := hcols coord (by simp)
    have hprev : (if is_x then x0 else y0) ≠ [] := by cases is_x <;> simpa
    obtain ⟨c0, ct, rfl⟩ := List.exists_cons_of_ne_nil hcoord
    have hrelne : ((c0 :: ct).zip (if is_x then x0 else y0)).map (fun p => p.1 - p.2) ≠ [] := by
      obtain ⟨p0, pt, hp⟩ := List.exists_cons_of_ne_nil hprev
      rw [hp]
      simp [List.zip_cons_cons]
    obtain ⟨r0, rs, hrel⟩ := List.exists_cons_of_ne_nil hrelne
    have hx1 : (if is_x then c0 :: ct else x0) ≠ [] := by cases is_x <;> simp [hx]
    have hy1 : (if is_x then y0 else c0 :: ct) ≠ [] := by cases is_x <;> simp [hy]
    obtain ⟨args, xf, yf, hrec, hxf, hyf⟩ :=
      ih (!is_x) (if is_x then c0 :: ct else x0) (if is_x then y0 else c0 :: ct) hx1 hy1
        (fun c hc => hcols c (by simp [hc]))
    refine ⟨(if rs.foldl max r0 = rs.foldl min r0 then Arg.scalar ((r0 :: rs).headD 0)
             else Arg.blend (r0 :: rs)) :: args, xf, yf, ?_, hxf, hyf⟩
    rw [reorderCols]
    simp only [hrel, pyMax, pyMin, hrec]

/-- Helper: with at least one master, `reorder_blend_args` always
succeeds. -/
theorem reorderGo_ok :
    ∀ (cmds : List PCmd) (x0 y0 : List ℚ), x0 ≠ [] → y0 ≠ [] →
      ∃ out, reorderGo cmds x0 y0 = .ok out := by
  intro cmds
  induction cmds with
  | nil => intro x0 y0 _ _; exact ⟨[], rfl⟩
  | cons cmd rest ih =>
    intro x0 y0 hx hy
    obtain ⟨args, xf, yf, hcols, hxf, hyf⟩ :=
      reorderCols_ok (zipStar cmd.coords) true x0 y0 hx hy
        (fun c hc => zipStar_mem_ne_nil cmd.coords c hc)
    obtain ⟨out2, hgo⟩ := ih xf yf hxf hyf
    exact ⟨⟨cmd.op, args⟩ :: out2, by rw [reorderGo]; simp only [hcols, hgo]⟩

/-- C9: calling `getCharString` with `optimize=False` fails with the
unbound-local error for every pen state with at least one master (the
local `maxstack` is assigned only inside the `optimize` branch but is
passed to `commandsToProgram` unconditionally); successful charstring
emission therefore requires `optimize=True`. -/
theorem c9_optimize_false_unbound (st : PenVS) (getDeltas : List ℚ → List ℚ)
    (hnm : 1 ≤ st.num_masters) :
    getCharString st getDeltas false = .error .unboundLocalError := by
  have hne : List.replicate st.num_masters (0 : ℚ) ≠ [] := by
    intro hc
    rw [List.replicate_eq_nil_iff] at hc
    omega
  obtain ⟨out, hgo⟩ := reorderGo_ok st.commands _ _ hne hne
  rw [getCharString]
  simp [show reorderBlendArgs st.num_masters st.commands = .ok out from hgo]

/-- C9 (witness): a one-master pen holding a single absolute moveto;
`getCharString` with `optimize=False` raises the unbound-local error. -/
theorem c9_optimize_false_unbound_witness :
    1 ≤ (1 : ℕ) ∧
    getCharString ⟨[⟨Op.moveto Tag.r, [[1, 2]]⟩], 1⟩ exampleDeltas false =
      .error .unboundLocalError :=
  ⟨by norm_num,
   c9_optimize_false_unbound ⟨[⟨Op.moveto Tag.r, [[1, 2]]⟩], 1⟩ exampleDeltas (by norm_num)⟩

/-- Helper: the default-master pass of `add_point` (master index 0) only
appends a command and advances the cursor; it never fails. -/
theorem addPoint_default (st : PenState) (ptype : Op) (coords : List ℚ)
    (h : st.m_index = 0) :
    addPoint st ptype coords =
      .ok { st with
            commands := (st.commands ++ [⟨ptype, [coords]⟩]),
            pt_index := st.pt_index + 1 } := by
  rw [addPoint]
  simp [h]

/-- Helper: a draw call on the default-master pass never fails and keeps
the master index. -/
theorem drawCall_default (st : PenState) (dc : DrawCall) (h : st.m_index = 0) :
    ∃ st2, drawCall st dc = .ok st2 ∧ st2.m_index = st.m_index := by
  cases dc with
  | moveTo pt =>
    have hap := addPoint_default { st with p0 := pt } (Op.moveto Tag.r) [pt.1, pt.2] h
    rw [drawCall, hap]
    exact ⟨_, rfl, rfl⟩
  | lineTo pt =>
    have hap := addPoint_default { st with p0 := pt } (Op.lineto Tag.r) [pt.1, pt.2] h
    rw [drawCall, hap]
    exact ⟨_, rfl, rfl⟩
  | curveTo p1 p2 p3 =>
    have hap := addPoint_default { st with p0 := p3 } (Op.curveto Tag.r Tag.r)
      [p1.1, p1.2, p2.1, p2.2, p3.1, p3.2] h
    rw [drawCall, hap]
    exact ⟨_, rfl, rfl⟩

/-- Helper: the default master's whole trace always draws successfully
(only region passes can raise `MergeTypeError`). -/
theorem drawTrace_default :
    ∀ (tr : List DrawCall) (st : PenState), st.m_index = 0 →
      ∃ st2, drawTrace st tr = .ok st2 ∧ st2.m_index = 0 := by
  intro tr
  induction tr with
  | nil => intro st h; exact ⟨st, rfl, h⟩
  | cons c rest ih =>
    intro st h
    obtain ⟨st2, hdc, hm⟩ := drawCall_default st c h
    obtain ⟨st3, hdt, hm3⟩ := ih st2 (by rw [hm, h])
    exact ⟨st3, by rw [drawTrace, hdc]; exact hdt, hm3⟩

/-- C3 (amended): an operator-tag mismatch that neither the flat-curve
repair nor the close-path repair fixes makes `add_point` raise
`MergeTypeError` carrying the point type, the cursor (point index), the
number of masters already merged into the command (standing for the
offending master index) and the conflicting default operator tag; and
`merge_charstrings` wraps any region-pass `MergeTypeError` into a
`MergeCharError` carrying the glyph name and re-raises it, so the whole
merge aborts with that error regardless of the glyphs remaining after
the failing one. -/
theorem c3_mismatch_error_with_context :
    (∀ (st : PenState) (cmd : PCmd) (point_type : Op) (pt_coords : List ℚ),
       st.m_index ≠ 0 →
       pyGet st.commands (st.pt_index : ℤ) = .ok cmd →
       cmd.op ≠ point_type →
       checkAndFixFlatCurve st cmd point_type pt_coords = .ok none →
       checkAndFixClospath st cmd point_type pt_coords = .ok none →
       addPoint st point_type pt_coords =
         .error (.mergeType point_type st.pt_index cmd.coords.length cmd.op)) ∧
    (∀ (nm : ℕ) (model : List ℚ → List ℚ) (gname : String) (d : List DrawCall)
       (rs : List (List DrawCall)) (rest : List (String × List DrawCall × List (List DrawCall)))
       (a : Op) (b c : ℕ) (dt : Op),
       mergeGlyphDraw nm d rs = .error (.mergeType a b c dt) →
       mergeCharstrings nm model ((gname, d, rs) :: rest) =
         .error (.mergeChar gname (.mergeType a b c dt))) := by
  constructor
  · intro st cmd point_type pt_coords h0 hget hop hflat hclos
    rw [addPoint]
    simp [h0, hget, hop, hflat, hclos]
  · intro nm model gname d rs rest a b c dt hglyph
    obtain ⟨st0, hd, hm0⟩ := drawTrace_default d (penInit nm) rfl
    simp only [mergeGlyphDraw, hd] at hglyph
    rw [mergeCharstrings]
    simp only [hd, hglyph]

/-- C3 (witness): the spec's fatal-mismatch example — region emits a
move where the default recorded a line, no repair applies — at the
`add_point` level on the concrete pen state reached there, and at the
`merge_charstrings` level for a two-glyph set whose first glyph fails. -/
theorem c3_mismatch_error_with_context_witness :
    addPoint
      ⟨[⟨Op.moveto Tag.r, [[0, 0], [0, 0]]⟩, ⟨Op.lineto Tag.r, [[10, 0], [10, 0]]⟩,
        ⟨Op.lineto Tag.r, [[0, 10]]⟩], 2, 1, 2, 0, (20, 20), 1 / 2⟩
      (Op.moveto Tag.r) [20, 20] =
      .error (.mergeType (Op.moveto Tag.r) 2 1 (Op.lineto Tag.r)) ∧
    mergeCharstrings 2 exampleDeltas
      [("g1", trMismatchDefault, [trMismatchRegion]), ("g2", trGoodTrace, [trGoodTrace])] =
      .error (.mergeChar "g1" (.mergeType (Op.moveto Tag.r) 2 1 (Op.lineto Tag.r))) := by
  constructor
  · exact c3_mismatch_error_with_context.1
      ⟨[⟨Op.moveto Tag.r, [[0, 0], [0, 0]]⟩, ⟨Op.lineto Tag.r, [[10, 0], [10, 0]]⟩,
        ⟨Op.lineto Tag.r, [[0, 10]]⟩], 2, 1, 2, 0, (20, 20), 1 / 2⟩
      ⟨Op.lineto Tag.r, [[0, 10]]⟩ (Op.moveto Tag.r) [20, 20]
      (by decide) (by with_unfolding_all rfl) (by decide)
      (by with_unfolding_all rfl) (by with_unfolding_all rfl)
  · exact c3_mismatch_error_with_context.2 2 exampleDeltas "g1" trMismatchDefault
      [trMismatchRegion] [("g2", trGoodTrace, [trGoodTrace])]
      (Op.moveto Tag.r) 2 1 (Op.lineto Tag.r) (by with_unfolding_all rfl)

/-- C3 (counterexample): the claim says remaining glyphs are unaffected
by the failure of one glyph.  With two glyphs whose first has the
unrepairable mismatch, `merge_charstrings` raises, so the run produces
no output at all for the second glyph — even though that glyph merges
fine on its own. -/
theorem c3_abort_counterexample :
    (mergeCharstrings 2 exampleDeltas
      [("g1", trMismatchDefault, [trMismatchRegion]),
       ("g2", trGoodTrace, [trGoodTrace])]).isOk = false ∧
    (mergeCharstrings 2 exampleDeltas [("g2", trGoodTrace, [trGoodTrace])]).isOk = true := by
  exact ⟨by with_unfolding_all rfl, by with_unfolding_all rfl⟩

/-- C4: the claim says that whenever one master's move meets the other
master's closed-subpath continuation the missing closing segment is
synthesized — scalar line or flattened curve as the default's operator
requires — and the merge succeeds.  In the region-missing-close branch
the source assigns `new_coords` only when the default's operator is
`rrcurveto`; when the default closes with an explicit `rlineto`
(`trCloseDefault` against `trCloseRegion`) the code crashes with an
unbound-local `NameError` instead of synthesizing the closing line.  The
claim's particular default-missing-close case (second conjunct) does
work: the closing line is inserted into the default master's command
list and the merge succeeds. -/
theorem c4_close_repair_unbound_nameerror :
    mergeGlyphDraw 2 trCloseDefault [trCloseRegion] = .error .nameError ∧
    (mergeGlyphDraw 2 trImplicitCloseDefault [trExplicitCloseRegion]).isOk = true := by
  exact ⟨by with_unfolding_all rfl, by with_unfolding_all rfl⟩

end CFF2Merge
